import Mathlib

/-!
# Verification of the delomemory dashboard's analytics and access-control logic

A shallow embedding, in Lean 4, of the pure logic of the dashboard:

* the nearest-rank `percentile` helper (analytics page);
* the static cost-estimation model (costs page);
* the `/api/search` endpoint's authentication, key lookup, validation,
  filtering, limiting and preview construction;
* the session middleware's redirect logic;
* the settings page's revoke guard for API keys;
* the coverage page's `domainToModule` mapping and coverage-gap detector;
* the chunks-returned histogram buckets.

JavaScript numbers are embedded as `ℚ` (the arithmetic the pages perform is
exact at these magnitudes), integer counts as `ℕ`, nullable columns as
`Option`, and JS objects used as string-keyed records as association lists
that preserve insertion order, matching `Object.entries` iteration order.
-/

/-- JS `Array.prototype.includes` on characters / `String.prototype.includes`,
and the `%needle%` part of a SQL `like` pattern: `containsSub hay needle` is
`true` iff `needle` occurs contiguously inside `hay`. -/
def containsSub : List Char → List Char → Bool
  | [], needle => needle.isEmpty
  | h :: t, needle => needle.isPrefixOf (h :: t) || containsSub t needle

/-- Substring test on strings (JS `hay.includes(needle)`). -/
def strIncludes (hay needle : String) : Bool :=
  containsSub hay.data needle.data

/-- Character-wise lowercasing (JS `toLowerCase` / Lean `String.toLower`,
stated over the character list). -/
def strToLower (s : String) : String :=
  String.mk (s.data.map Char.toLower)

/-- `pre` is a prefix of `s` (JS `s.startsWith(pre)`). -/
def strStartsWith (s pre : String) : Bool :=
  pre.data.isPrefixOf s.data

/-- Postgres `ilike '%q%'`: case-insensitive substring match. -/
def ilikeContains (text q : String) : Bool :=
  strIncludes (strToLower text) (strToLower q)

/-- JS truthiness of an optional string: `undefined`/`null` and `''` are
falsy, every other string is truthy. -/
def jsStrTruthy : Option String → Bool
  | none => false
  | some s => !(s == "")

/-- JS `email.split('@')[0]` — the user id derived from an email address:
the characters before the first `'@'` (the whole string when there is
none). -/
def uidOf (email : String) : String :=
  String.mk (email.data.takeWhile (fun c => !(c == '@')))

/-- JS `s.substring(0, n)`: the first `n` characters of `s`. -/
def jsSubstring (s : String) (n : ℕ) : String :=
  String.mk (s.data.take n)

section Percentile

/-- `percentile` from the analytics dashboards (`part_002` line 39 and
`part_004` line 495):

```js
function percentile(arr, p) {
  if (arr.length === 0) return 0
  const sorted = [...arr].sort((a, b) => a - b)
  const idx = Math.ceil((p / 100) * sorted.length) - 1
  return sorted[Math.max(0, idx)]
}
```

The sort on a copy is embedded as `List.insertionSort`; an out-of-bounds
access (`undefined` in JS) is `none`. -/
def percentile (arr : List ℚ) (p : ℚ) : Option ℚ :=
  if arr.length = 0 then some 0
  else
    let sorted := (arr.insertionSort (· ≤ ·))
    let idx : ℤ := ⌈(p / 100) * (arr.length : ℚ)⌉ - 1
    sorted[(max 0 idx).toNat]?

/-- The ascending integers 1..100, as the fixed test array from the spec. -/
def oneToHundred : List ℚ :=
  (List.range 100).map (fun i => ((i + 1 : ℕ) : ℚ))

end Percentile

section CostModel

/-- The fixed constants of the cost-estimation model
(`costs/page.tsx` lines 24–29); `0.02` is the exact rational `2/100`. -/
structure CostModelC where
  avgTokensPerQuery : ℚ
  avgTokensPerChunk : ℚ
  embeddingCostPer1MTokens : ℚ
  avgChunksProcessedPerQuery : ℚ

def COST_MODEL : CostModelC :=
  { avgTokensPerQuery := 200
    avgTokensPerChunk := 150
    embeddingCostPer1MTokens := 2 / 100
    avgChunksProcessedPerQuery := 50 }

/-- `estimateQueryCost` (`costs/page.tsx` lines 31–36). -/
def estimateQueryCost (model : CostModelC) : ℚ :=
  let queryTokens := model.avgTokensPerQuery
  let chunkTokens := model.avgChunksProcessedPerQuery * model.avgTokensPerChunk
  let totalTokens := queryTokens + chunkTokens
  (totalTokens / 1000000) * model.embeddingCostPer1MTokens

def COST_PER_QUERY : ℚ := estimateQueryCost COST_MODEL

/-- `monthlyCost` (`costs/page.tsx` lines 134–137): the 30-day query count
times the per-query constant. -/
def monthlyCost (totalQueries30d : ℕ) : ℚ :=
  (totalQueries30d : ℚ) * COST_PER_QUERY

end CostModel

section SearchEndpoint

/-- A row of the `delomemory.api_keys` table, restricted to the columns the
embedded logic reads. -/
structure ApiKey where
  user_id : String
  access_level : ℕ
  is_active : Bool
  deriving DecidableEq, Repr

/-- A row of `delomemory.knowledge_chunks` as selected by the search
endpoint (`part_000` line 48). -/
structure ChunkRec where
  id : ℕ
  file_path : String
  domain : String
  content_type : String
  chunk_text : String
  entity_codes : List String
  access_level : ℕ
  metadata : String
  deriving DecidableEq, Repr

/-- The JSON body `{query, tool, domain?, top_k?}` of a search request;
`none` models an absent field. -/
structure SearchReq where
  query : Option String
  tool : Option String
  domain : Option String
  top_k : Option ℕ
  deriving DecidableEq, Repr

/-- One entry of the `results` array of a successful search response
(`part_000` lines 71–78). -/
structure SearchResult where
  rank : ℕ
  file_path : String
  domain : String
  content_type : String
  preview : String
  entity_codes : List String
  access_level : ℕ
  deriving DecidableEq, Repr

/-- A search response: an error with an HTTP status, or the 200 payload. -/
inductive SearchResp where
  | err (status : ℕ) (msg : String)
  | ok (query tool : String) (results_count : ℕ) (access_level : ℕ)
      (results : List SearchResult)
  deriving DecidableEq, Repr

/-- HTTP status of a response (`NextResponse.json` defaults to 200). -/
def SearchResp.statusOf : SearchResp → ℕ
  | .err s _ => s
  | .ok _ _ _ _ _ => 200

/-- The `results` array of a response (empty for error responses). -/
def SearchResp.resultsOf : SearchResp → List SearchResult
  | .err _ _ => []
  | .ok _ _ _ _ rs => rs

/-- The caller's active api_keys rows
(`.eq('user_id', userId).eq('is_active', true)`, `part_000` lines 26–27). -/
def activeKeyRows (keys : List ApiKey) (uid : String) : List ApiKey :=
  keys.filter (fun k => k.user_id == uid && k.is_active)

/-- The access level resolved by
`.order('access_level', descending).limit(1).single()`
(`part_000` lines 28–30): the maximum `access_level` among the caller's
active keys, `none` when there is no active key (`.single()` yields no row,
so `keyData` is null and the endpoint answers 403). -/
def resolvedLevel (keys : List ApiKey) (uid : String) : Option ℕ :=
  ((activeKeyRows keys uid).map (·.access_level)).max?

/-- The row filter built on `knowledge_chunks` (`part_000` lines 45–58):
`access_level <= lvl`, an optional `domain` equality (applied only when the
request's `domain` is truthy), and `ilike('%query%')`. -/
def searchPred (lvl : ℕ) (domain : Option String) (q : String)
    (c : ChunkRec) : Bool :=
  decide (c.access_level ≤ lvl) &&
    (!(jsStrTruthy domain) || c.domain == domain.getD "") &&
    ilikeContains c.chunk_text q

/-- JS `top_k || 20` (`part_000` line 58): `0` (and an absent field) is
falsy, so the limit falls back to 20. -/
def effTopK : Option ℕ → ℕ
  | none => 20
  | some k => if k = 0 then 20 else k

/-- JS `chunk_text.substring(0, 300) + (chunk_text.length > 300 ? '...' : '')`
(`part_000` line 76). -/
def previewOf (s : String) : String :=
  jsSubstring s 300 ++ (if 300 < s.length then "..." else "")

/-- The result record built for a chunk at (0-based) position `i` of the
returned rows (`part_000` lines 71–78). -/
def resultOfChunk (p : ℕ × ChunkRec) : SearchResult :=
  { rank := p.1 + 1
    file_path := p.2.file_path
    domain := p.2.domain
    content_type := p.2.content_type
    preview := previewOf p.2.chunk_text
    entity_codes := p.2.entity_codes
    access_level := p.2.access_level }

/-- The `POST` handler of the search endpoint (`part_000` lines 11–87):
authentication (401), active-key lookup (403), body validation (400,
JS-falsy `query`/`tool`, i.e. absent or empty), then the filtered,
limited, ranked read. `user` is the authenticated caller's email. -/
def searchPOST (user : Option String) (keys : List ApiKey)
    (chunks : List ChunkRec) (req : SearchReq) : SearchResp :=
  match user with
  | none => .err 401 "Unauthorized"
  | some email =>
    match resolvedLevel keys (uidOf email) with
    | none => .err 403 "No active API key found"
    | some lvl =>
      if !(jsStrTruthy req.query) || !(jsStrTruthy req.tool) then
        .err 400 "query and tool are required"
      else
        let results := (chunks.filter
          (searchPred lvl req.domain (req.query.getD ""))).take
            (effTopK req.top_k)
        .ok (req.query.getD "") (req.tool.getD "") results.length lvl
          (results.enum.map resultOfChunk)

end SearchEndpoint

section Middleware

/-- Outcome of the session middleware: pass the request through
(`NextResponse.next`) or redirect. -/
inductive MwResp where
  | next
  | redirect (url : String)
  deriving DecidableEq, Repr

/-- `updateSession` (`part_006` lines 4–67). The api_keys lookup for
`/dashboard/settings` (lines 52–57) has no `is_active` filter and ends in
`.single()`, which yields a row only when **exactly one** row matches the
`user_id` filter; with zero or several matching rows `data` is null and the
request is redirected to `/dashboard/access-denied`. -/
def updateSession (user : Option String) (keys : List ApiKey)
    (path : String) : MwResp :=
  match user with
  | none =>
    if !(strStartsWith path "/login") && !(strStartsWith path "/auth") then
      .redirect "/login"
    else .next
  | some email =>
    if path == "/login" then .redirect "/dashboard"
    else if path == "/dashboard/settings" then
      match keys.filter (fun k => k.user_id == uidOf email) with
      | [r] => if r.access_level < 4 then .redirect "/dashboard/access-denied"
               else .next
      | _ => .redirect "/dashboard/access-denied"
    else .next

end Middleware

section RevokeGuard

/-- The guard at the head of `handleRevoke`
(`settings/page.tsx` lines 348–355):

```js
const l4Count = apiKeys?.filter((k) => k.access_level === 4).length ?? 0
const targetRow = apiKeys?.find((k) => k.user_id === userId)
if (targetRow?.access_level === 4 && l4Count <= 1) { alert(...); return }
```

`apiKeys` is the full key list fetched without an `is_active` filter
(`settings/page.tsx` lines 115–126), so `l4Count` counts revoked L4 keys
too. Returns `true` when the removal is rejected (alert, no delete) and
`false` when the handler proceeds to the delete. -/
def handleRevokeGuard (apiKeys : List ApiKey) (userId : String) : Bool :=
  let l4Count := (apiKeys.filter (fun k => k.access_level == 4)).length
  match apiKeys.find? (fun k => k.user_id == userId) with
  | some targetRow => targetRow.access_level == 4 && decide (l4Count ≤ 1)
  | none => false

end RevokeGuard

section ChunkBuckets

/-- One histogram bucket (`part_004` lines 476–483); `none` as upper bound
embeds JS `Infinity`. -/
structure Bucket where
  label : String
  min : ℕ
  max : Option ℕ
  deriving DecidableEq, Repr

def CHUNK_BUCKETS : List Bucket :=
  [ { label := "0", min := 0, max := some 0 }
  , { label := "1-5", min := 1, max := some 5 }
  , { label := "6-10", min := 6, max := some 10 }
  , { label := "11-20", min := 11, max := some 20 }
  , { label := "21-50", min := 21, max := some 50 }
  , { label := "50+", min := 51, max := none } ]

/-- An audit-log row as used by the histogram (`chunks_returned` is a
nullable integer column). -/
structure AuditRow where
  chunks_returned : Option ℕ
  deriving DecidableEq, Repr

/-- `c >= bucket.min && c <= bucket.max` (`part_004` line 594). -/
def bucketMatch (b : Bucket) (c : ℕ) : Bool :=
  decide (b.min ≤ c) && (match b.max with
    | some m => decide (c ≤ m)
    | none => true)

/-- `chunksHistData` (`part_004` lines 589–598): for each bucket, the count
of audit rows whose `chunks_returned ?? 0` lies in the bucket. -/
def chunksHistData (auditRows : List AuditRow) : List (String × ℕ) :=
  CHUNK_BUCKETS.map (fun b =>
    (b.label,
      (auditRows.filter (fun r => bucketMatch b (r.chunks_returned.getD 0))).length))

end ChunkBuckets

section Coverage

/-- JS `s || dflt` for strings: the empty string is falsy. -/
def jsOrStr (s dflt : String) : String :=
  if s == "" then dflt else s

/-- JS `o || dflt` for a nullable string. -/
def jsOrOpt (o : Option String) (dflt : String) : String :=
  match o with
  | some s => jsOrStr s dflt
  | none => dflt

/-- `MODULE_MAP` (`coverage/page.tsx` lines 39–51), in object insertion
order. -/
def MODULE_MAP : List (String × String) :=
  [ ("tenant-services", "TSC")
  , ("connect", "CON")
  , ("forecast", "FST")
  , ("ilm", "ILM")
  , ("optimize", "OPT")
  , ("automate", "AUT")
  , ("analyze", "ANA")
  , ("onboarding", "OBD")
  , ("portal", "PTL")
  , ("admin", "APL")
  , ("demo", "DMD") ]

/-- `domainToModule` (`coverage/page.tsx` lines 95–104): direct key match
(every map value is a truthy string), then the first key, in insertion
order, that the lowercased domain contains or that contains it, else the
sentinel `'Unknown'`. -/
def domainToModule (domain : String) : String :=
  match MODULE_MAP.lookup domain with
  | some code => code
  | none =>
    let lower := strToLower domain
    match MODULE_MAP.find?
        (fun p => strIncludes lower p.1 || strIncludes p.1 lower) with
    | some p => p.2
    | none => "Unknown"

/-- JS `counts[k] = (counts[k] || 0) + 1` on an object embedded as an
insertion-ordered association list: bump an existing key in place, append a
new key at the end. -/
def jsInc (row : List (String × ℕ)) (k : String) : List (String × ℕ) :=
  if (row.lookup k).isSome then
    row.map (fun p => if p.1 == k then (p.1, p.2 + 1) else p)
  else row ++ [(k, 1)]

/-- JS `new Set(l)` iterated in insertion order: first occurrences, in
order. -/
def dedupFirst (l : List String) : List String :=
  l.foldl (fun acc s => if acc.contains s then acc else acc ++ [s]) []

/-- A chunk row as selected by the coverage page (`domain, content_type`). -/
structure ChunkRow where
  domain : String
  content_type : String
  deriving DecidableEq, Repr

/-- An entity row as selected by the coverage page (`domain` nullable). -/
structure EntityRow where
  code : String
  entity_type : String
  domain : Option String
  deriving DecidableEq, Repr

/-- A coverage gap (`coverage/page.tsx` lines 31–35); `severity` is one of
`"Low" | "Medium" | "High"`. -/
structure CoverageGap where
  id : String
  severity : String
  message : String
  deriving DecidableEq, Repr

/-- `moduleCounts` of the `gaps` memo (`coverage/page.tsx` lines 196–200):
chunk counts keyed by module in first-occurrence order. -/
def moduleCountsOf (chunks : List ChunkRow) : List (String × ℕ) :=
  chunks.foldl
    (fun counts c => jsInc counts (domainToModule (jsOrStr c.domain "unknown")))
    []

/-- `entityModuleCounts` (`coverage/page.tsx` lines 180–188): entity counts
keyed by module; `{}` when the entity list is empty. -/
def entityModuleCountsOf (entities : List EntityRow) : List (String × ℕ) :=
  if entities.length = 0 then []
  else
    entities.foldl
      (fun counts e =>
        jsInc counts (domainToModule (jsOrOpt e.domain "unknown")))
      []

/-- `m[d] ??= {}; m[d][ct] = (m[d][ct] || 0) + 1` on the nested heatmap
matrix. -/
def jsIncNested (m : List (String × List (String × ℕ))) (d ct : String) :
    List (String × List (String × ℕ)) :=
  if (m.lookup d).isSome then
    m.map (fun p => if p.1 == d then (p.1, jsInc p.2 ct) else p)
  else m ++ [(d, jsInc [] ct)]

/-- The heatmap memo's result (`coverage/page.tsx` lines 137–164), without
the purely presentational `maxCount`. -/
structure Heatmap where
  domains : List String
  contentTypes : List String
  matrix : List (String × List (String × ℕ))
  deriving DecidableEq, Repr

/-- The heatmap memo (`coverage/page.tsx` lines 137–164): empty for an
empty chunk list; otherwise the per-domain/content-type counts with the
deduplicated key sets sorted lexicographically (JS default `sort()`). -/
def heatmapOf (chunks : List ChunkRow) : Heatmap :=
  if chunks.length = 0 then ⟨[], [], []⟩
  else
    { domains :=
        (dedupFirst (chunks.map (fun c => jsOrStr c.domain "unknown"))).insertionSort
          (· ≤ ·)
      contentTypes :=
        (dedupFirst
          (chunks.map (fun c => jsOrStr c.content_type "unknown"))).insertionSort
          (· ≤ ·)
      matrix :=
        chunks.foldl
          (fun m c =>
            jsIncNested m (jsOrStr c.domain "unknown")
              (jsOrStr c.content_type "unknown"))
          [] }

/-- JS `matrix[d]?.[ct]` with both lookups defaulting: `0` encodes a falsy
(absent) cell; stored counts are always at least 1. -/
def matrixVal (m : List (String × List (String × ℕ))) (d ct : String) : ℕ :=
  (((m.lookup d).getD []).lookup ct).getD 0

/-- The module of each chunk, in order: the key stream that
`moduleCountsOf` folds over. -/
def modulesOf (chunks : List ChunkRow) : List String :=
  chunks.map (fun c => domainToModule (jsOrStr c.domain "unknown"))

/-- The `gaps` memo (`coverage/page.tsx` lines 191–240): low-coverage
modules (`< 10` chunks, `'Unknown'` excluded), modules without entities,
and content types present in at least half of the domains but missing in
one to three of them. -/
def gaps (chunks : List ChunkRow) (entities : List EntityRow) :
    List CoverageGap :=
  let moduleCounts := moduleCountsOf chunks
  let lowGaps := moduleCounts.filterMap (fun p =>
    if p.1 != "Unknown" && decide (p.2 < 10) then
      some { id := "low-" ++ p.1
             severity := "Medium"
             message := "Module " ++ p.1 ++ " has only " ++ toString p.2 ++
               " chunk" ++ (if p.2 == 1 then "" else "s") ++ " — low coverage" }
    else none)
  let allModules := dedupFirst (moduleCounts.map Prod.fst)
  let entityCounts := entityModuleCountsOf entities
  let noEntityGaps := allModules.filterMap (fun md =>
    if md != "Unknown" && ((entityCounts.lookup md).getD 0 == 0) then
      some { id := "no-entities-" ++ md
             severity := "High"
             message := "Module " ++ md ++
               " has zero entities — no structured knowledge" }
    else none)
  let hm := heatmapOf chunks
  let missingGaps :=
    if decide (1 < hm.domains.length) && decide (1 < hm.contentTypes.length) then
      hm.contentTypes.filterMap (fun ct =>
        let domainsWithCt :=
          hm.domains.filter (fun d => !(matrixVal hm.matrix d ct == 0))
        let domainsMissingCt :=
          hm.domains.filter (fun d => matrixVal hm.matrix d ct == 0)
        if decide ((hm.domains.length : ℚ) / 2 ≤ (domainsWithCt.length : ℚ)) &&
            decide (0 < domainsMissingCt.length) &&
            decide (domainsMissingCt.length ≤ 3) then
          some { id := "missing-" ++ ct ++ "-" ++
                   String.intercalate "," domainsMissingCt
                 severity := "Low"
                 message := "Content type \"" ++ ct ++ "\" missing in: " ++
                   String.intercalate ", " domainsMissingCt }
        else none)
    else []
  lowGaps ++ noEntityGaps ++ missingGaps

end Coverage

/-!
## Theorems

Each claim `C1`–`C10` is settled by exactly one theorem below; shared
helper lemmas precede them.
-/

section HelperLemmas

theorem length_filter_cons_eq {α : Type} (q : α → Bool) (r : α) (t : List α) :
    ((r :: t).filter q).length =
      (if q r then 1 else 0) + (t.filter q).length := by
  by_cases h : q r <;> simp [List.filter_cons, h]
  omega

theorem sum_map_ite_add (bs : List Bucket) (p : Bucket → Bool) (g : Bucket → ℕ) :
    (bs.map (fun b => (if p b then 1 else 0) + g b)).sum =
      bs.countP p + (bs.map g).sum := by
  induction bs with
  | nil => simp
  | cons b t ih => by_cases h : p b <;> simp [List.countP_cons, h, ih] <;> omega

theorem countP_bucket_one (c : ℕ) :
    CHUNK_BUCKETS.countP (fun b => bucketMatch b c) = 1 := by
  simp only [CHUNK_BUCKETS, List.countP_cons, List.countP_nil, bucketMatch,
    Bool.and_eq_true, decide_eq_true_eq]
  split_ifs <;> simp_all <;> omega

theorem hist_sum_eq_length (rows : List AuditRow) :
    (CHUNK_BUCKETS.map (fun b =>
      (rows.filter (fun r => bucketMatch b (r.chunks_returned.getD 0))).length)).sum
      = rows.length := by
  induction rows with
  | nil => decide
  | cons r t ih =>
    have h1 : ∀ b : Bucket,
        ((r :: t).filter (fun x => bucketMatch b (x.chunks_returned.getD 0))).length =
          (if bucketMatch b (r.chunks_returned.getD 0) then 1 else 0) +
            (t.filter (fun x => bucketMatch b (x.chunks_returned.getD 0))).length :=
      fun b => length_filter_cons_eq _ r t
    simp only [h1]
    rw [sum_map_ite_add, countP_bucket_one, ih, List.length_cons]
    omega

end HelperLemmas

/-- **C5** (confirmed). The cost estimate is a deterministic linear function
of the 30-day query count: `monthlyCost N = N * COST_PER_QUERY`, the
per-query constant equals
`((avgTokensPerQuery + avgChunksProcessedPerQuery * avgTokensPerChunk) / 1e6)
 * embeddingCostPer1MTokens`, and two evaluations at the same `N` agree. -/
theorem cost_estimate_linear :
    (∀ N : ℕ, monthlyCost N = (N : ℚ) * COST_PER_QUERY) ∧
    COST_PER_QUERY =
      ((COST_MODEL.avgTokensPerQuery +
          COST_MODEL.avgChunksProcessedPerQuery * COST_MODEL.avgTokensPerChunk)
        / 1000000) * COST_MODEL.embeddingCostPer1MTokens ∧
    (∀ N₁ N₂ : ℕ, N₁ = N₂ → monthlyCost N₁ = monthlyCost N₂) :=
  ⟨fun _ => rfl, rfl, fun _ _ h => h ▸ rfl⟩

/-- Witness for C5 at `N = 1000`. -/
theorem cost_estimate_linear_witness :
    monthlyCost 1000 = (1000 : ℚ) * COST_PER_QUERY ∧
      monthlyCost 1000 = monthlyCost 1000 :=
  ⟨cost_estimate_linear.1 1000, cost_estimate_linear.2.2 1000 1000 rfl⟩

/-- **C1** (corrected). The revoke guard rejects a removal exactly when the
target user's key (the first `api_keys` row with that `user_id`) has access
level 4 and the key list holds at most one L4 key **counting revoked
(inactive) keys too** — the guard's `l4Count` does not filter on
`is_active`, so "last active L4 key" (the original claim) is not the
tested condition. -/
theorem revoke_guard_l4_count_iff (apiKeys : List ApiKey) (userId : String) :
    handleRevokeGuard apiKeys userId = true ↔
      ∃ t, apiKeys.find? (fun k => k.user_id == userId) = some t ∧
        t.access_level = 4 ∧
        (apiKeys.map (fun k => k.access_level)).count 4 ≤ 1 := by
  have hcount : (apiKeys.filter (fun k => k.access_level == 4)).length =
      (apiKeys.map (fun k => k.access_level)).count 4 := by
    rw [List.count_eq_countP, List.countP_map, ← List.countP_eq_length_filter]
    rfl
  unfold handleRevokeGuard
  cases h : apiKeys.find? (fun k => k.user_id == userId) with
  | none => simp [h]
  | some t => simp [h, hcount, Bool.and_eq_true, beq_iff_eq, decide_eq_true_eq]

/-- Counterexample for C1 as stated: `"a"` holds the **only active** L4 key
(`"b"`'s L4 key is inactive), so the claim requires the guard to reject the
removal of `"a"`, yet `handleRevokeGuard` accepts it (`false`) because its
count also sees the revoked L4 key. -/
theorem revoke_guard_active_cex :
    handleRevokeGuard [⟨"a", 4, true⟩, ⟨"b", 4, false⟩] "a" = false ∧
    (([⟨"a", 4, true⟩, ⟨"b", 4, false⟩] : List ApiKey).filter
        (fun k => k.is_active && k.access_level == 4)).length = 1 ∧
    (([⟨"a", 4, true⟩, ⟨"b", 4, false⟩] : List ApiKey).find?
        (fun k => k.user_id == "a")).map (fun k => k.access_level) = some 4 := by
  decide

/-- **C10** (confirmed). The six chunks-returned buckets partition the
per-row counts (`chunks_returned ?? 0`): the bucket counts sum to the
number of audit rows, and each row matches exactly one bucket. -/
theorem chunks_histogram_partition (auditRows : List AuditRow) :
    ((chunksHistData auditRows).map Prod.snd).sum = auditRows.length ∧
    ∀ r ∈ auditRows,
      CHUNK_BUCKETS.countP
        (fun b => bucketMatch b (r.chunks_returned.getD 0)) = 1 := by
  constructor
  · rw [chunksHistData, List.map_map]
    exact hist_sum_eq_length auditRows
  · intro r _
    exact countP_bucket_one _

/-- Witness for C10 on a concrete three-row audit log. -/
theorem chunks_histogram_partition_witness :
    ((chunksHistData [⟨none⟩, ⟨some 3⟩, ⟨some 55⟩]).map Prod.snd).sum = 3 ∧
    CHUNK_BUCKETS.countP
      (fun b => bucketMatch b ((⟨some 3⟩ : AuditRow).chunks_returned.getD 0)) = 1 :=
  ⟨((chunks_histogram_partition [⟨none⟩, ⟨some 3⟩, ⟨some 55⟩]).1).trans (by decide),
   (chunks_histogram_partition [⟨none⟩, ⟨some 3⟩, ⟨some 55⟩]).2 ⟨some 3⟩ (by decide)⟩

theorem strMk_data (s : String) : String.mk s.data = s := by
  cases s
  rfl

/-- **C7** (confirmed). The search endpoint's error ladder: 401 for every
unauthenticated request; 403 for every authenticated caller without an
active API key; 400 for every authenticated caller with an active key whose
body has a JS-falsy (absent or empty) `query` or `tool`; and the key check
precedes body validation, so a keyless caller with a missing `query` gets
403, never 400. -/
theorem search_status_codes :
    (∀ keys chunks req, (searchPOST none keys chunks req).statusOf = 401) ∧
    (∀ email keys chunks req, activeKeyRows keys (uidOf email) = [] →
      (searchPOST (some email) keys chunks req).statusOf = 403) ∧
    (∀ email keys chunks req, activeKeyRows keys (uidOf email) ≠ [] →
      (jsStrTruthy req.query = false ∨ jsStrTruthy req.tool = false) →
      (searchPOST (some email) keys chunks req).statusOf = 400) ∧
    (∀ email keys chunks req, activeKeyRows keys (uidOf email) = [] →
      jsStrTruthy req.query = false →
      (searchPOST (some email) keys chunks req).statusOf = 403 ∧
      (searchPOST (some email) keys chunks req).statusOf ≠ 400) := by
  refine ⟨fun keys chunks req => rfl, ?_, ?_, ?_⟩
  · intro email keys chunks req h
    simp [searchPOST, resolvedLevel, h, SearchResp.statusOf]
  · intro email keys chunks req h hv
    obtain ⟨lvl, hlvl⟩ : ∃ lvl, resolvedLevel keys (uidOf email) = some lvl := by
      cases hm : resolvedLevel keys (uidOf email) with
      | some l => exact ⟨l, rfl⟩
      | none =>
        rw [resolvedLevel, List.max?_eq_none_iff, List.map_eq_nil_iff] at hm
        exact absurd hm h
    rcases hv with hq | ht
    · simp [searchPOST, hlvl, hq, SearchResp.statusOf]
    · simp [searchPOST, hlvl, ht, SearchResp.statusOf]
  · intro email keys chunks req h hq
    constructor
    · simp [searchPOST, resolvedLevel, h, SearchResp.statusOf]
    · simp [searchPOST, resolvedLevel, h, SearchResp.statusOf]

/-- Witness for C7 on concrete requests. -/
theorem search_status_codes_witness :
    (searchPOST none [] [] ⟨some "q", some "t", none, none⟩).statusOf = 401 ∧
    (searchPOST (some "a@x") [] [] ⟨some "q", some "t", none, none⟩).statusOf = 403 ∧
    (searchPOST (some "a@x") [⟨"a", 2, true⟩] []
      ⟨none, some "t", none, none⟩).statusOf = 400 ∧
    (searchPOST (some "a@x") [] [] ⟨none, some "t", none, none⟩).statusOf = 403 :=
  ⟨search_status_codes.1 [] [] ⟨some "q", some "t", none, none⟩,
   search_status_codes.2.1 "a@x" [] [] ⟨some "q", some "t", none, none⟩ (by decide),
   search_status_codes.2.2.1 "a@x" [⟨"a", 2, true⟩] [] ⟨none, some "t", none, none⟩
     (by decide) (Or.inl (by decide)),
   (search_status_codes.2.2.2 "a@x" [] [] ⟨none, some "t", none, none⟩
     (by decide) (by decide)).1⟩

/-- **C9** (confirmed). Every result's `preview` is `previewOf` of some
stored chunk's text, and `previewOf` returns the text unchanged at length
at most 300, else its first 300 characters followed by `"..."`, of total
length 303. -/
theorem search_preview_truncation :
    (∀ user keys chunks req r,
        r ∈ (searchPOST user keys chunks req).resultsOf →
        ∃ c ∈ chunks, r.preview = previewOf c.chunk_text) ∧
    (∀ s : String,
      (s.length ≤ 300 → previewOf s = s) ∧
      (300 < s.length →
        previewOf s = jsSubstring s 300 ++ "..." ∧ (previewOf s).length = 303)) := by
  constructor
  · intro user keys chunks req r hr
    cases user with
    | none => simp [searchPOST, SearchResp.resultsOf] at hr
    | some email =>
      cases hlvl : resolvedLevel keys (uidOf email) with
      | none => simp [searchPOST, hlvl, SearchResp.resultsOf] at hr
      | some lvl =>
        by_cases hv : (!(jsStrTruthy req.query) || !(jsStrTruthy req.tool)) = true
        · simp [searchPOST, hlvl, hv, SearchResp.resultsOf] at hr
        · rw [Bool.not_eq_true] at hv
          simp only [searchPOST, hlvl, hv, Bool.false_eq_true, if_false,
            SearchResp.resultsOf] at hr
          obtain ⟨p, hp, hpe⟩ := List.mem_map.mp hr
          obtain ⟨i, c⟩ := p
          obtain ⟨hi, hx⟩ := List.mem_enum hp
          refine ⟨c, ?_, ?_⟩
          · exact List.mem_of_mem_filter (List.mem_of_mem_take (hx ▸ List.getElem_mem hi))
          · rw [← hpe]
            rfl
  · intro s
    constructor
    · intro h
      have hnot : ¬ (300 < s.length) := by omega
      have htake : s.data.take 300 = s.data :=
        List.take_of_length_le (show s.data.length ≤ 300 from h)
      simp [previewOf, hnot, jsSubstring, htake, strMk_data, String.append_empty]
    · intro h
      refine ⟨by simp [previewOf, h], ?_⟩
      simp only [previewOf, h, if_true, String.length_append, jsSubstring]
      have h300 : (s.data.take 300).length = 300 := by
        rw [List.length_take]
        have : 300 < s.data.length := h
        omega
      have hmk : (String.mk (s.data.take 300)).length = (s.data.take 300).length := rfl
      rw [hmk, h300]
      rfl

set_option maxRecDepth 4000 in
/-- Witness for C9: a short chunk text survives unchanged through a real
endpoint run, and a 301-character text is truncated to 303 characters. -/
theorem search_preview_truncation_witness :
    (∃ c ∈ [(⟨1, "f", "d", "ct", "xQx", [], 1, "m"⟩ : ChunkRec)],
        (⟨1, "f", "d", "ct", "xQx", [], 1⟩ : SearchResult).preview =
          previewOf c.chunk_text) ∧
    previewOf "short" = "short" ∧
    previewOf (String.mk (List.replicate 301 'a')) =
      jsSubstring (String.mk (List.replicate 301 'a')) 300 ++ "..." ∧
    (previewOf (String.mk (List.replicate 301 'a'))).length = 303 :=
  ⟨search_preview_truncation.1 (some "a@x") [⟨"a", 2, true⟩]
      [⟨1, "f", "d", "ct", "xQx", [], 1, "m"⟩] ⟨some "q", some "t", none, none⟩
      ⟨1, "f", "d", "ct", "xQx", [], 1⟩ (by decide),
   (search_preview_truncation.2 "short").1 (by decide),
   ((search_preview_truncation.2 (String.mk (List.replicate 301 'a'))).2 (by decide)).1,
   ((search_preview_truncation.2 (String.mk (List.replicate 301 'a'))).2 (by decide)).2⟩

/-- **C6** (corrected). The middleware redirects unauthenticated requests
outside `/login`/`/auth` to `/login`, authenticated requests on `/login` to
`/dashboard`, and passes through everything else — except
`/dashboard/settings`, which passes through **iff the user has exactly one
api_keys row and it has access level at least 4**: the lookup uses
`.single()` with no `is_active` filter, so zero *or several* matching rows
(even all L4) are redirected to `/dashboard/access-denied`, not only "no
row or level below 4" as the original claim says. -/
theorem middleware_policy (user : Option String) (keys : List ApiKey)
    (path : String) :
    (user = none → strStartsWith path "/login" = false →
      strStartsWith path "/auth" = false →
      updateSession user keys path = .redirect "/login") ∧
    (user = none →
      (strStartsWith path "/login" = true ∨ strStartsWith path "/auth" = true) →
      updateSession user keys path = .next) ∧
    (∀ email, user = some email → path = "/login" →
      updateSession user keys path = .redirect "/dashboard") ∧
    (∀ email, user = some email → path = "/dashboard/settings" →
      ((∃ r, keys.filter (fun k => k.user_id == uidOf email) = [r] ∧
          4 ≤ r.access_level) →
        updateSession user keys path = .next) ∧
      ((¬ ∃ r, keys.filter (fun k => k.user_id == uidOf email) = [r] ∧
          4 ≤ r.access_level) →
        updateSession user keys path = .redirect "/dashboard/access-denied")) ∧
    (∀ email, user = some email → path ≠ "/login" →
      path ≠ "/dashboard/settings" → updateSession user keys path = .next) := by
  refine ⟨?_, ?_, ?_, ?_, ?_⟩
  · rintro rfl h1 h2
    simp [updateSession, h1, h2]
  · rintro rfl h
    rcases h with h | h <;> simp [updateSession, h]
  · rintro email rfl rfl
    simp [updateSession]
  · rintro email rfl rfl
    constructor
    · rintro ⟨r, hr, hr4⟩
      have hlt : ¬ (r.access_level < 4) := by omega
      simp [updateSession, hr, hlt]
    · intro hno
      rcases hfs : keys.filter (fun k => k.user_id == uidOf email) with
        _ | ⟨r, _ | ⟨r2, t⟩⟩
      · simp [updateSession, hfs]
      · have hlt : r.access_level < 4 := by
          by_contra hge
          exact hno ⟨r, hfs, by omega⟩
        simp [updateSession, hfs, hlt]
      · simp [updateSession, hfs]
  · rintro email rfl h1 h2
    simp [updateSession, beq_iff_eq, h1, h2]

/-- Counterexample for C6 as stated: an authenticated user with **two** L4
api_keys rows (none below level 4) requests `/dashboard/settings`; the
claim says the request passes through, but `.single()` fails on two rows
and the middleware redirects to `/dashboard/access-denied`. -/
theorem middleware_multirow_cex :
    updateSession (some "a@x") [⟨"a", 4, true⟩, ⟨"a", 4, true⟩]
        "/dashboard/settings" = .redirect "/dashboard/access-denied" ∧
    (([⟨"a", 4, true⟩, ⟨"a", 4, true⟩] : List ApiKey).filter
        (fun k => k.user_id == uidOf "a@x")) ≠ [] ∧
    (∀ k ∈ ([⟨"a", 4, true⟩, ⟨"a", 4, true⟩] : List ApiKey),
        4 ≤ k.access_level) := by
  decide

/-- Witness for C6 across the policy's cases. -/
theorem middleware_policy_witness :
    updateSession none [] "/dashboard" = .redirect "/login" ∧
    updateSession none [] "/auth/cb" = .next ∧
    updateSession (some "a@x") [] "/login" = .redirect "/dashboard" ∧
    updateSession (some "a@x") [⟨"a", 4, true⟩] "/dashboard/settings" = .next ∧
    updateSession (some "a@x") [⟨"a", 3, true⟩] "/dashboard/settings" =
      .redirect "/dashboard/access-denied" ∧
    updateSession (some "a@x") [] "/dashboard/costs" = .next :=
  ⟨(middleware_policy none [] "/dashboard").1 rfl (by decide) (by decide),
   (middleware_policy none [] "/auth/cb").2.1 rfl (Or.inr (by decide)),
   (middleware_policy (some "a@x") [] "/login").2.2.1 "a@x" rfl rfl,
   ((middleware_policy (some "a@x") [⟨"a", 4, true⟩] "/dashboard/settings").2.2.2.1
       "a@x" rfl rfl).1 ⟨⟨"a", 4, true⟩, by decide, by decide⟩,
   ((middleware_policy (some "a@x") [⟨"a", 3, true⟩] "/dashboard/settings").2.2.2.1
       "a@x" rfl rfl).2
     (by
       rintro ⟨r, hr, h4⟩
       have hcomp : (([⟨"a", 3, true⟩] : List ApiKey).filter
           (fun k => k.user_id == uidOf "a@x")) = [⟨"a", 3, true⟩] := by decide
       rw [hcomp] at hr
       injection hr with hh ht
       subst hh
       exact absurd h4 (by decide)),
   (middleware_policy (some "a@x") [] "/dashboard/costs").2.2.2.2 "a@x" rfl
     (by decide) (by decide)⟩

/-- **C3** (corrected). On the success path (authenticated caller whose
maximum active-key level is `L`, truthy `query` and `tool`) every result's
`access_level` is at most `L`, the ranks are exactly `1, ..., count`, and
the result count respects the limit — which is `top_k` **only when `top_k`
is supplied and nonzero**: JS `top_k || 20` sends a supplied `top_k = 0`
back to the default 20, so the original "at most top_k whenever supplied"
fails at 0. -/
theorem search_ok_ranked (email : String) (keys : List ApiKey)
    (chunks : List ChunkRec) (req : SearchReq) (L : ℕ)
    (hL : ((activeKeyRows keys (uidOf email)).map
      (fun k => k.access_level)).max? = some L)
    (hq : jsStrTruthy req.query = true) (ht : jsStrTruthy req.tool = true) :
    ∃ rs : List SearchResult,
      searchPOST (some email) keys chunks req =
        .ok (req.query.getD "") (req.tool.getD "") rs.length L rs ∧
      (∀ r ∈ rs, r.access_level ≤ L) ∧
      rs.map (fun r => r.rank) = List.range' 1 rs.length ∧
      (req.top_k = none → rs.length ≤ 20) ∧
      (∀ k, req.top_k = some k → k ≠ 0 → rs.length ≤ k) ∧
      (req.top_k = some 0 → rs.length ≤ 20) := by
  have hres : resolvedLevel keys (uidOf email) = some L := hL
  set limited := (chunks.filter
    (searchPred L req.domain (req.query.getD ""))).take (effTopK req.top_k)
    with hlim
  have hlen : (limited.enum.map resultOfChunk).length = limited.length := by
    rw [List.length_map, List.enum_length]
  have hle : limited.length ≤ effTopK req.top_k := by
    rw [hlim]
    exact List.length_take_le _ _
  refine ⟨limited.enum.map resultOfChunk, ?_, ?_, ?_, ?_, ?_, ?_⟩
  · simp only [searchPOST, hres, hq, ht, Bool.not_true, Bool.or_self,
      Bool.false_eq_true, if_false, hlen]
  · intro r hr
    obtain ⟨p, hp, hpe⟩ := List.mem_map.mp hr
    obtain ⟨i, c⟩ := p
    obtain ⟨hi, hx⟩ := List.mem_enum hp
    have hcmem : c ∈ chunks.filter (searchPred L req.domain (req.query.getD "")) :=
      List.mem_of_mem_take (hx ▸ List.getElem_mem hi)
    have hpred := List.of_mem_filter hcmem
    simp only [searchPred, Bool.and_eq_true, decide_eq_true_eq] at hpred
    rw [← hpe]
    exact hpred.1.1
  · rw [List.map_map]
    have hcomp : ((fun r : SearchResult => r.rank) ∘ resultOfChunk) =
        ((fun n => n + 1) ∘ Prod.fst) := rfl
    rw [hlen, hcomp, ← List.map_map, List.enum_map_fst, List.range'_eq_map_range]
    simp [Nat.add_comm]
  · intro h
    rw [hlen]
    simpa [effTopK, h] using hle
  · intro k hk hk0
    rw [hlen]
    simpa [effTopK, hk, hk0] using hle
  · intro h
    rw [hlen]
    simpa [effTopK, h] using hle

/-- Counterexample for C3 as stated: a supplied `top_k = 0` should cap the
results at 0, but the endpoint returns 1 result (limit fell back to 20). -/
theorem search_topk_zero_cex :
    ((⟨some "q", some "t", none, some 0⟩ : SearchReq).top_k = some 0) ∧
    (searchPOST (some "a@x") [⟨"a", 2, true⟩]
      [⟨1, "f", "d", "ct", "xQx", [], 1, "m"⟩]
      ⟨some "q", some "t", none, some 0⟩).resultsOf.length = 1 ∧
    ¬ ((1 : ℕ) ≤ 0) := by
  decide

/-- Witness for C3 on a concrete success run. -/
theorem search_ok_ranked_witness :
    ∃ rs : List SearchResult,
      searchPOST (some "a@x") [⟨"a", 2, true⟩]
          [⟨1, "f", "d", "ct", "xQx", [], 1, "m"⟩]
          ⟨some "q", some "t", none, some 5⟩ =
        .ok "q" "t" rs.length 2 rs ∧
      (∀ r ∈ rs, r.access_level ≤ 2) ∧
      rs.map (fun r => r.rank) = List.range' 1 rs.length ∧
      ((⟨some "q", some "t", none, some 5⟩ : SearchReq).top_k = none →
        rs.length ≤ 20) ∧
      (∀ k, (⟨some "q", some "t", none, some 5⟩ : SearchReq).top_k = some k →
        k ≠ 0 → rs.length ≤ k) ∧
      ((⟨some "q", some "t", none, some 5⟩ : SearchReq).top_k = some 0 →
        rs.length ≤ 20) :=
  search_ok_ranked "a@x" [⟨"a", 2, true⟩] [⟨1, "f", "d", "ct", "xQx", [], 1, "m"⟩]
    ⟨some "q", some "t", none, some 5⟩ 2 (by decide) (by decide) (by decide)

theorem percentile_nonempty_eq (arr : List ℚ) (p : ℚ) (h : arr.length ≠ 0) :
    percentile arr p =
      (arr.insertionSort (· ≤ ·))[(max 0
        (⌈(p / 100) * (arr.length : ℚ)⌉ - 1)).toNat]? := by
  simp [percentile, h]

theorem percentile_ceil_le (arr : List ℚ) (p : ℚ) (hp1 : p ≤ 100) :
    ⌈(p / 100) * (arr.length : ℚ)⌉ ≤ (arr.length : ℤ) := by
  apply Int.ceil_le.mpr
  push_cast
  have h1 : p / 100 ≤ 1 := (div_le_one (by norm_num)).mpr hp1
  calc p / 100 * (arr.length : ℚ) ≤ 1 * (arr.length : ℚ) :=
        mul_le_mul_of_nonneg_right h1 (by positivity)
    _ = (arr.length : ℚ) := one_mul _

/-- **C2** (confirmed). For a non-empty array and a percentile rank
`0 < p ≤ 100`, `percentile` returns the nearest-rank value: the element at
1-based position `⌈(p/100)·n⌉` of the ascending-sorted copy of the array
(at `p = 0` the claimed 1-based position `0` does not exist, so the rank is
read in its standard range). -/
theorem percentile_nearest_rank (arr : List ℚ) (p : ℚ)
    (hne : arr ≠ []) (hp0 : 0 < p) (hp1 : p ≤ 100) :
    ∃ k : ℕ, (k : ℤ) = ⌈(p / 100) * (arr.length : ℚ)⌉ ∧
      1 ≤ k ∧ k ≤ arr.length ∧
      List.Sorted (· ≤ ·) (arr.insertionSort (· ≤ ·)) ∧
      (arr.insertionSort (· ≤ ·)).Perm arr ∧
      percentile arr p = (arr.insertionSort (· ≤ ·))[k - 1]? := by
  have hn : 0 < arr.length := List.length_pos.mpr hne
  have hcpos : 0 < ⌈(p / 100) * (arr.length : ℚ)⌉ := by
    apply Int.ceil_pos.mpr
    have h100 : 0 < p / 100 := div_pos hp0 (by norm_num)
    exact mul_pos h100 (by exact_mod_cast hn)
  have hcle := percentile_ceil_le arr p hp1
  refine ⟨(⌈(p / 100) * (arr.length : ℚ)⌉).toNat,
    Int.toNat_of_nonneg hcpos.le, by omega, by omega,
    List.sorted_insertionSort _ _, List.perm_insertionSort _ _, ?_⟩
  rw [percentile_nonempty_eq arr p (by omega)]
  congr 1
  have hmax : max 0 (⌈(p / 100) * (arr.length : ℚ)⌉ - 1) =
      ⌈(p / 100) * (arr.length : ℚ)⌉ - 1 := max_eq_right (by omega)
  rw [hmax]
  omega

set_option maxRecDepth 4000 in
/-- Witness for C2: the 95th percentile of the integers 1..100 is 95. -/
theorem percentile_nearest_rank_witness :
    percentile oneToHundred 95 = some 95 := by
  obtain ⟨k, hk, hk1, hk2, _, _, hp⟩ :=
    percentile_nearest_rank oneToHundred 95 (by decide) (by norm_num) (by norm_num)
  have hlen : oneToHundred.length = 100 := by decide
  rw [hlen] at hk
  push_cast at hk
  have h95 : (95 : ℚ) / 100 * 100 = ((95 : ℤ) : ℚ) := by norm_num
  rw [h95, Int.ceil_intCast] at hk
  have hk' : k = 95 := by exact_mod_cast hk
  subst hk'
  rw [hp]
  decide

/-- **C8** (confirmed). `percentile` is total over its JS inputs: the empty
array yields 0 for every rank; for a non-empty array and `0 ≤ p ≤ 100` the
clamped index stays in bounds, so the result is an element of the input
array. (The embedding is pure: the input list itself is never reordered,
only the sorted copy `arr.insertionSort` is indexed.) -/
theorem percentile_total_safe (arr : List ℚ) (p : ℚ) :
    (arr = [] → percentile arr p = some 0) ∧
    (arr ≠ [] → 0 ≤ p → p ≤ 100 →
      ∃ x ∈ arr, percentile arr p = some x) := by
  constructor
  · rintro rfl
    simp [percentile]
  · intro hne _hp0 hp1
    have hn : 0 < arr.length := List.length_pos.mpr hne
    have hcle := percentile_ceil_le arr p hp1
    have hmaxle : max 0 (⌈(p / 100) * (arr.length : ℚ)⌉ - 1) ≤
        (arr.length : ℤ) - 1 := max_le (by omega) (by omega)
    have hilt : (max 0 (⌈(p / 100) * (arr.length : ℚ)⌉ - 1)).toNat <
        (arr.insertionSort (· ≤ ·)).length := by
      rw [List.length_insertionSort]
      omega
    refine ⟨(arr.insertionSort (· ≤ ·))[(max 0
      (⌈(p / 100) * (arr.length : ℚ)⌉ - 1)).toNat], ?_, ?_⟩
    · exact (List.perm_insertionSort _ arr).mem_iff.mp (List.getElem_mem hilt)
    · rw [percentile_nonempty_eq arr p (by omega)]
      exact List.getElem?_eq_getElem hilt

/-- Witness for C8: the empty array and a concrete three-element array. -/
theorem percentile_total_safe_witness :
    percentile [] 42 = some 0 ∧
    ∃ x ∈ ([3, 1, 2] : List ℚ), percentile [3, 1, 2] 50 = some x :=
  ⟨(percentile_total_safe [] 42).1 rfl,
   (percentile_total_safe [3, 1, 2] 50).2 (by decide) (by norm_num) (by norm_num)⟩

section AssocLemmas

theorem lookup_map_bump (m : List (String × ℕ)) (k q : String) :
    (m.map (fun p => if p.1 == k then (p.1, p.2 + 1) else p)).lookup q =
      if q = k then (m.lookup k).map (fun v => v + 1) else m.lookup q := by
  induction m with
  | nil => simp
  | cons a t ih =>
    obtain ⟨ak, av⟩ := a
    simp only [List.map_cons]
    by_cases h1 : ak = k
    · subst h1
      by_cases h2 : q = ak
      · subst h2
        simp [List.lookup_cons]
      · have hqk : (q == ak) = false := beq_eq_false_iff_ne.mpr h2
        simp only [beq_self_eq_true, if_pos, List.lookup_cons, hqk, if_neg h2]
        rw [ih, if_neg h2]
    · by_cases h2 : q = ak
      · subst h2
        have hqk : (q == k) = false := beq_eq_false_iff_ne.mpr h1
        have hkq : (k == q) = false :=
          beq_eq_false_iff_ne.mpr (fun hh => h1 hh.symm)
        simp [List.lookup_cons, hqk, hkq, h1]
      · have hqa : (q == ak) = false := beq_eq_false_iff_ne.mpr h2
        have hak : (ak == k) = false := beq_eq_false_iff_ne.mpr h1
        have hka : (k == ak) = false :=
          beq_eq_false_iff_ne.mpr (fun hh => h1 hh.symm)
        simp only [hak, Bool.false_eq_true, if_false, List.lookup_cons, hqa]
        rw [ih]
        by_cases h3 : q = k <;> simp [h3, List.lookup_cons, hka]

theorem lookup_append_single (m : List (String × ℕ)) (k q : String) (v : ℕ)
    (hm : m.lookup k = none) :
    (m ++ [(k, v)]).lookup q = if q = k then some v else m.lookup q := by
  rw [List.lookup_append]
  by_cases hqk : q = k
  · subst hqk
    rw [hm]
    simp [List.lookup_cons]
  · have hb : (q == k) = false := beq_eq_false_iff_ne.mpr hqk
    cases h : m.lookup q <;> simp [List.lookup_cons, hb, h, hqk]

theorem lookup_jsInc (m : List (String × ℕ)) (k q : String) :
    (jsInc m k).lookup q =
      if q = k then some ((m.lookup k).getD 0 + 1) else m.lookup q := by
  unfold jsInc
  by_cases h : (m.lookup k).isSome
  · rw [if_pos h, lookup_map_bump]
    obtain ⟨v, hv⟩ := Option.isSome_iff_exists.mp h
    rw [hv]
    by_cases hq : q = k <;> simp [hq, hv]
  · rw [if_neg h]
    have hnone : m.lookup k = none := Option.not_isSome_iff_eq_none.mp h
    rw [lookup_append_single m k q 1 hnone, hnone]
    rfl

theorem getD_lookup_foldl (ms : List String) (acc : List (String × ℕ))
    (k : String) :
    ((ms.foldl jsInc acc).lookup k).getD 0 =
      ((acc.lookup k).getD 0) + ms.count k := by
  induction ms generalizing acc with
  | nil => simp
  | cons m t ih =>
    rw [List.foldl_cons, ih, lookup_jsInc]
    by_cases h : k = m
    · subst h
      simp only [if_pos rfl, Option.getD_some, List.count_cons, beq_self_eq_true,
        if_pos]
      omega
    · have hbeq : (k == m) = false := by simp [h]
      simp [h, List.count_cons, hbeq]

theorem isSome_lookup_foldl (ms : List String) (acc : List (String × ℕ))
    (k : String) :
    ((ms.foldl jsInc acc).lookup k).isSome =
      ((acc.lookup k).isSome || decide (0 < ms.count k)) := by
  induction ms generalizing acc with
  | nil => simp
  | cons m t ih =>
    rw [List.foldl_cons, ih, lookup_jsInc]
    by_cases h : k = m
    · subst h
      have hbeq : (k == k) = true := beq_self_eq_true k
      simp [List.count_cons, hbeq]
    · have hbeq : (k == m) = false := beq_eq_false_iff_ne.mpr h
      simp [h, List.count_cons, hbeq]

theorem keys_jsInc (m : List (String × ℕ)) (k : String) :
    (jsInc m k).map Prod.fst =
      if (m.lookup k).isSome then m.map Prod.fst
      else m.map Prod.fst ++ [k] := by
  unfold jsInc
  by_cases h : (m.lookup k).isSome
  · rw [if_pos h, if_pos h, List.map_map]
    congr 1
    funext p
    by_cases hp : p.1 = k <;> simp [hp]
  · rw [if_neg h, if_neg h, List.map_append]
    rfl

theorem nodup_keys_jsInc (m : List (String × ℕ)) (k : String)
    (h : (m.map Prod.fst).Nodup) : ((jsInc m k).map Prod.fst).Nodup := by
  rw [keys_jsInc]
  by_cases hs : (m.lookup k).isSome
  · simpa [hs] using h
  · rw [if_neg hs, List.nodup_append]
    refine ⟨h, List.nodup_singleton k, ?_⟩
    intro a ha hb
    have hk : a = k := by simpa using hb
    subst hk
    have hnone : m.lookup a = none := Option.not_isSome_iff_eq_none.mp hs
    rw [List.lookup_eq_none_iff] at hnone
    obtain ⟨p, hp, hfst⟩ := List.mem_map.mp ha
    have hne := hnone p hp
    rw [hfst] at hne
    simp at hne

theorem nodup_keys_foldl (ms : List String) (acc : List (String × ℕ))
    (h : (acc.map Prod.fst).Nodup) :
    (((ms.foldl jsInc acc)).map Prod.fst).Nodup := by
  induction ms generalizing acc with
  | nil => exact h
  | cons m t ih => exact ih _ (nodup_keys_jsInc _ _ h)

theorem mem_assoc_iff_lookup (m : List (String × ℕ))
    (h : (m.map Prod.fst).Nodup) (k : String) (v : ℕ) :
    (k, v) ∈ m ↔ m.lookup k = some v := by
  induction m with
  | nil => simp
  | cons a t ih =>
    obtain ⟨ak, av⟩ := a
    simp only [List.map_cons, List.nodup_cons] at h
    obtain ⟨hnk, hnd⟩ := h
    by_cases hk : k = ak
    · subst hk
      have hbeq : (k == k) = true := beq_self_eq_true k
      simp only [List.mem_cons, List.lookup_cons, hbeq]
      constructor
      · rintro (h | h)
        · rw [Prod.mk.injEq] at h
          rw [h.2]
        · exact absurd (List.mem_map_of_mem Prod.fst h) hnk
      · intro h
        left
        rw [Prod.mk.injEq]
        exact ⟨rfl, (Option.some.inj h).symm⟩
    · have hbeq : (k == ak) = false := beq_eq_false_iff_ne.mpr hk
      simp [List.mem_cons, List.lookup_cons, hbeq, ih hnd, Prod.mk.injEq, hk]

theorem moduleCounts_eq_foldl (chunks : List ChunkRow) :
    moduleCountsOf chunks = (modulesOf chunks).foldl jsInc [] := by
  rw [modulesOf, List.foldl_map]
  rfl

theorem nodup_keys_moduleCounts (chunks : List ChunkRow) :
    ((moduleCountsOf chunks).map Prod.fst).Nodup := by
  rw [moduleCounts_eq_foldl]
  exact nodup_keys_foldl _ [] (by simp)

theorem mem_moduleCounts_iff (chunks : List ChunkRow) (k : String) (v : ℕ) :
    (k, v) ∈ moduleCountsOf chunks ↔
      ((modulesOf chunks).count k = v ∧ 0 < v) := by
  rw [mem_assoc_iff_lookup _ (nodup_keys_moduleCounts chunks),
    moduleCounts_eq_foldl]
  have hgd := getD_lookup_foldl (modulesOf chunks) [] k
  have hs := isSome_lookup_foldl (modulesOf chunks) [] k
  simp only [List.lookup_nil, Option.getD_none, Option.isSome_none,
    Bool.false_or, Nat.zero_add] at hgd hs
  cases hl : ((modulesOf chunks).foldl jsInc []).lookup k with
  | none =>
    rw [hl] at hgd hs
    simp only [Option.getD_none] at hgd
    simp only [Option.isSome_none] at hs
    constructor
    · intro h
      exact absurd h (by simp)
    · rintro ⟨hcv, hv⟩
      rw [← hgd] at hcv
      omega
  | some w =>
    rw [hl] at hgd hs
    simp only [Option.getD_some] at hgd
    simp only [Option.isSome_some] at hs
    have hpos : 0 < (modulesOf chunks).count k := by
      have := hs.symm
      simpa using this
    constructor
    · intro h
      have := Option.some.inj h
      constructor
      · omega
      · omega
    · rintro ⟨hcv, hv⟩
      have : w = v := by omega
      rw [this]

theorem low_id_head (m : String) : ("low-" ++ m).data.head? = some 'l' := by
  rw [String.data_append]
  rfl

theorem no_entities_id_head (x : String) :
    ("no-entities-" ++ x).data.head? = some 'n' := by
  rw [String.data_append]
  rfl

theorem missing_id_head (ct j : String) :
    ((("missing-" ++ ct) ++ "-") ++ j).data.head? = some 'm' := by
  rw [String.data_append, String.data_append, String.data_append]
  rfl

theorem low_id_inj {a b : String} (h : "low-" ++ a = "low-" ++ b) : a = b := by
  have hd := congrArg String.data h
  rw [String.data_append, String.data_append] at hd
  exact String.ext (List.append_cancel_left hd)

end AssocLemmas

/-- **C4** (corrected). The low-coverage rule emits `low-<module>` exactly
for the modules that are not `'Unknown'`, have **at least one** chunk, and
have fewer than 10 chunks. A module with zero chunks never enters
`moduleCounts`, so — contrary to the original "iff chunk count below 10" —
it is not flagged; the `'Unknown'` exclusion holds as stated. -/
theorem coverage_low_gap_iff (chunks : List ChunkRow) (entities : List EntityRow)
    (md : String) :
    (∃ g ∈ gaps chunks entities, g.id = "low-" ++ md) ↔
      (md ≠ "Unknown" ∧ 1 ≤ (modulesOf chunks).count md ∧
        (modulesOf chunks).count md < 10) := by
  constructor
  · rintro ⟨g, hg, hid⟩
    simp only [gaps, List.mem_append] at hg
    rcases hg with (hg | hg) | hg
    · obtain ⟨⟨p1, p2⟩, hp, hpe⟩ := List.mem_filterMap.mp hg
      by_cases hc : ((p1, p2).1 != "Unknown" && decide ((p1, p2).2 < 10)) = true
      · rw [if_pos hc] at hpe
        have hge := Option.some.inj hpe
        have hgid : g.id = "low-" ++ p1 := (congrArg CoverageGap.id hge).symm
        have hp1 : p1 = md := low_id_inj (hgid.symm.trans hid)
        simp only [Bool.and_eq_true, bne_iff_ne, decide_eq_true_eq] at hc
        obtain ⟨hne, hlt⟩ := hc
        have hcnt := (mem_moduleCounts_iff chunks p1 p2).mp hp
        subst hp1
        exact ⟨hne, by omega, by omega⟩
      · rw [if_neg hc] at hpe
        exact absurd hpe (by simp)
    · obtain ⟨q, hq, hqe⟩ := List.mem_filterMap.mp hg
      split at hqe
      · have hge := Option.some.inj hqe
        have hgid : g.id = "no-entities-" ++ q :=
          (congrArg CoverageGap.id hge).symm
        have hhead := congrArg (fun s : String => s.data.head?)
          (hgid.symm.trans hid)
        simp only [no_entities_id_head, low_id_head] at hhead
        exact absurd (Option.some.inj hhead) (by decide)
      · exact absurd hqe (by simp)
    · split at hg
      · obtain ⟨ct, hct, hce⟩ := List.mem_filterMap.mp hg
        split at hce
        · have hge := Option.some.inj hce
          have hgid := (congrArg CoverageGap.id hge).symm
          have hhead := congrArg (fun s : String => s.data.head?)
            (hgid.symm.trans hid)
          simp only [missing_id_head, low_id_head] at hhead
          exact absurd (Option.some.inj hhead) (by decide)
        · exact absurd hce (by simp)
      · exact absurd hg (by simp)
  · rintro ⟨hmd, h1, h10⟩
    have hassoc : (md, (modulesOf chunks).count md) ∈ moduleCountsOf chunks :=
      (mem_moduleCounts_iff chunks md _).mpr ⟨rfl, by omega⟩
    refine ⟨⟨"low-" ++ md, "Medium",
      "Module " ++ md ++ " has only " ++
        toString ((modulesOf chunks).count md) ++ " chunk" ++
        (if (modulesOf chunks).count md == 1 then "" else "s") ++
        " — low coverage"⟩, ?_, rfl⟩
    simp only [gaps, List.mem_append]
    left
    left
    refine List.mem_filterMap.mpr ⟨(md, (modulesOf chunks).count md), hassoc, ?_⟩
    have hcnd : ((md, (modulesOf chunks).count md).1 != "Unknown" &&
        decide ((md, (modulesOf chunks).count md).2 < 10)) = true := by
      simp only [Bool.and_eq_true, bne_iff_ne, decide_eq_true_eq]
      exact ⟨hmd, h10⟩
    rw [if_pos hcnd]

/-- Counterexample for C4 as stated: with a single chunk in domain
`connect`, module `TSC` has chunk count `0 < 10` and is not `'Unknown'`,
so the original iff demands a `low-TSC` gap — but the detector emits
none. -/
theorem coverage_low_gap_cex :
    "TSC" ≠ "Unknown" ∧
    (modulesOf [⟨"connect", "x"⟩]).count "TSC" < 10 ∧
    ¬ ∃ g ∈ gaps [⟨"connect", "x"⟩] [], g.id = "low-" ++ "TSC" := by
  decide
